import Mathlib

/-!
Verification development for the txtoo repository: a zero-knowledge encrypted
text sharing application.  The client-side envelope codec lives in
src/utils/crypto.ts (base64url encode/decode, PBKDF2 key derivation, AES-GCM
encryption/decryption); the Cloudflare Worker backend (workers/src/index.ts)
implements id generation and the submit/fetch handlers over a D1 table.

Embedding conventions:
* Bytes are `Nat` values; byte validity (`< 256`) is carried as hypotheses
  where the surrounding code guarantees it (`Uint8Array` cells).
* `btoa`/`atob` are modelled at the byte level following the WHATWG
  forgiving-base64 algorithm that browsers implement.
* The Web Crypto primitives (PBKDF2, AES-GCM) and `TextEncoder`/`TextDecoder`
  are platform primitives, not repository code; they are modelled as an ideal
  KDF (the derived key is the (password, salt) pair), an ideal AEAD (the tag
  authenticates key and iv, decryption succeeds exactly when the tag matches),
  and an injective byte encoding of strings.  The repository's own functions
  (`base64urlEncode`, `base64urlDecode`, `encryptText`, `decryptText`,
  `generateId`, the submit and fetch handlers, `generateRandomPassword`) are
  translated statement by statement from the source.
* Randomness (`crypto.getRandomValues`) is modelled by passing the drawn
  bytes as explicit arguments.
-/

namespace Txtoo

/-! ### Base64 / base64url codec (src/utils/crypto.ts lines 1-24) -/

/-- The 64-character standard base64 alphabet used by `btoa` and `atob`. -/
def b64Alphabet : List Char :=
  "ABCDEFGHIJKLMNOPQRSTUVWXYZabcdefghijklmnopqrstuvwxyz0123456789+/".toList

/-- Character of the base64 alphabet at sextet value `n`. -/
def b64Char (n : Nat) : Char := b64Alphabet.getD n '?'

/-- Sextet value of a base64 alphabet character (its index in the alphabet). -/
def b64Digit (c : Char) : Nat := b64Alphabet.findIdx (fun d => d = c)

/-- Model of `btoa` on a byte list: standard base64, 3 bytes per 4 characters,
with trailing '=' padding for a 1- or 2-byte final chunk. -/
def btoaChunks : List Nat → List Char
  | [] => []
  | [x] => [b64Char (x / 4), b64Char (x % 4 * 16), '=', '=']
  | [x, y] => [b64Char (x / 4), b64Char (x % 4 * 16 + y / 16), b64Char (y % 16 * 4), '=']
  | x :: y :: z :: rest =>
      b64Char (x / 4) :: b64Char (x % 4 * 16 + y / 16) ::
        b64Char (y % 16 * 4 + z / 64) :: b64Char (z % 64) :: btoaChunks rest

/-- The character substitution performed by the two global replaces of
`base64urlEncode`: '+' becomes '-' and '/' becomes '_'. -/
def toUrlSafe (c : Char) : Char :=
  if c = '+' then '-' else if c = '/' then '_' else c

/-- `base64urlEncode` (src/utils/crypto.ts lines 1-11): `btoa` of the bytes'
binary string, then '+' to '-', '/' to '_', and all '=' removed. -/
def base64urlEncode (bytes : List Nat) : String :=
  ⟨((btoaChunks bytes).map toUrlSafe).filter (fun c => c ≠ '=')⟩

/-- The inverse substitution performed by the two global replaces of
`base64urlDecode`: '-' becomes '+' and '_' becomes '/'. -/
def fromUrlSafe (c : Char) : Char :=
  if c = '-' then '+' else if c = '_' then '/' else c

/-- The `while (str.length % 4) str += '='` padding loop of `base64urlDecode`. -/
def padB64 (l : List Char) : List Char :=
  l ++ List.replicate ((4 - l.length % 4) % 4) '='

/-- ASCII whitespace stripped by the forgiving-base64 algorithm of `atob`. -/
def isB64Ws (c : Char) : Bool :=
  c = '\t' || c = '\n' || c = '\x0c' || c = '\r' || c = ' '

/-- Removal of at most two trailing '=' characters (forgiving-base64 step 2:
if the final character is '=' remove it, then once more). -/
def stripPad (l : List Char) : List Char :=
  if l.getLast? = some '=' then
    if l.dropLast.getLast? = some '=' then l.dropLast.dropLast else l.dropLast
  else l

/-- Bytes of a run of base64 characters whose length is 0, 2 or 3 mod 4
(forgiving-base64 main loop, leftover bits discarded). -/
def decodeGroups : List Char → List Nat
  | a :: b :: c :: d :: rest =>
      (b64Digit a * 4 + b64Digit b / 16) ::
        (b64Digit b % 16 * 16 + b64Digit c / 4) ::
          (b64Digit c % 4 * 64 + b64Digit d) :: decodeGroups rest
  | [a, b] => [b64Digit a * 4 + b64Digit b / 16]
  | [a, b, c] => [b64Digit a * 4 + b64Digit b / 16, b64Digit b % 16 * 16 + b64Digit c / 4]
  | _ => []

/-- Model of `atob`: the WHATWG forgiving-base64 decode.  Strips ASCII
whitespace, removes up to two trailing '=' when the length is a multiple of
four, fails when the remaining length is 1 mod 4 or any character is outside
the base64 alphabet, and otherwise decodes (a failure is the
`InvalidCharacterError` that `atob` throws). -/
def atobChars (input : List Char) : Option (List Nat) :=
  let l1 := input.filter (fun c => !isB64Ws c)
  let l2 := if l1.length % 4 == 0 then stripPad l1 else l1
  if l2.length % 4 == 1 then none
  else if l2.all (fun c => b64Alphabet.contains c) then some (decodeGroups l2)
  else none

/-- `base64urlDecode` (src/utils/crypto.ts lines 13-24): '-' to '+', '_' to '/',
pad with '=' to a multiple of four, then `atob`; `none` models the exception
path of `atob`. -/
def base64urlDecode (s : String) : Option (List Nat) :=
  atobChars (padB64 (s.data.map fromUrlSafe))

/-! ### TextEncoder / TextDecoder model -/

/-- Model of `TextEncoder().encode`: an injective byte encoding of strings,
three bytes (big-endian base 256) per character. -/
def textEncode (s : String) : List Nat :=
  s.data.flatMap (fun c => [c.toNat / 65536, c.toNat / 256 % 256, c.toNat % 256])

/-- Model of `TextDecoder().decode` (non-fatal mode, so it never throws):
inverse of `textEncode`, with U+FFFD replacing any malformed chunk. -/
def textDecodeChars : List Nat → List Char
  | b1 :: b2 :: b3 :: rest =>
      (if Nat.isValidChar (b1 * 65536 + b2 * 256 + b3) then
        Char.ofNat (b1 * 65536 + b2 * 256 + b3)
      else '�') :: textDecodeChars rest
  | _ :: _ => ['�']
  | [] => []

/-- Model of `TextDecoder().decode` packaged as a `String`. -/
def textDecode (bytes : List Nat) : String :=
  ⟨textDecodeChars bytes⟩

/-! ### Web Crypto model (PBKDF2 and AES-GCM as ideal primitives) -/

/-- Model of a `CryptoKey` produced by PBKDF2: an ideal KDF, so the key is
determined by, and determines, the (password, salt) pair. -/
structure DerivedKey where
  password : String
  salt : List Nat
deriving DecidableEq

/-- `deriveKey` (src/utils/crypto.ts lines 26-50): PBKDF2-SHA-256, 100000
iterations, modelled as the ideal KDF. -/
def deriveKey (password : String) (salt : List Nat) : DerivedKey :=
  ⟨password, salt⟩

/-- Prefix-free unary byte code (bytes 0 and 1 only) of a list of naturals,
used to build authentication tags that are distinct for distinct keys. -/
def unaryCode (l : List Nat) : List Nat :=
  l.flatMap (fun n => List.replicate n 0 ++ [1])

/-- The ideal AES-GCM authentication tag: a byte sequence starting with the
marker byte 255 followed only by bytes below 3, injective in (key, iv). -/
def macTag (key : DerivedKey) (iv : List Nat) : List Nat :=
  255 :: unaryCode (key.password.data.map Char.toNat) ++
    2 :: unaryCode key.salt ++ 2 :: unaryCode iv

/-- Model of `crypto.subtle.encrypt` with AES-GCM: ciphertext is the data
followed by an authentication tag binding key and iv. -/
def subtleEncrypt (key : DerivedKey) (iv : List Nat) (data : List Nat) : List Nat :=
  data ++ macTag key iv

/-- Model of `crypto.subtle.decrypt` with AES-GCM: succeeds exactly when the
tag for (key, iv) authenticates, returning the data before the tag; `none`
models the `OperationError` rejection. -/
def subtleDecrypt (key : DerivedKey) (iv : List Nat) (data : List Nat) : Option (List Nat) :=
  if (macTag key iv).isSuffixOf data then
    some (data.take (data.length - (macTag key iv).length))
  else none

/-! ### Envelope codec (src/utils/crypto.ts lines 52-103) -/

/-- Return value of `encryptText`: the two envelope fields. -/
structure Encrypted where
  cipherText : String
  iv : String
deriving DecidableEq

/-- `encryptText` (src/utils/crypto.ts lines 52-81).  The 16 random salt bytes
and 12 random iv bytes produced by `crypto.getRandomValues` are passed in as
`salt` and `iv`. -/
def encryptText (text password : String) (salt iv : List Nat) : Encrypted :=
  let data := textEncode text
  let key := deriveKey password salt
  let encryptedData := subtleEncrypt key iv data
  let combinedBuffer := salt ++ encryptedData
  { cipherText := base64urlEncode combinedBuffer, iv := base64urlEncode iv }

/-- The exceptions `decryptText` can reject with: `invalidCharacter` from
`atob` on a malformed base64url field, `operationError` from
`crypto.subtle.decrypt` on an authentication failure. -/
inductive CryptoError
  | invalidCharacter
  | operationError
deriving DecidableEq

deriving instance DecidableEq for Except

/-- `decryptText` (src/utils/crypto.ts lines 83-103): decode both fields,
slice the first 16 bytes as salt and the rest as ciphertext+tag, derive the
key, decrypt, decode as text.  There is no shape validation of either field. -/
def decryptText (cipherText ivString password : String) : Except CryptoError String :=
  match base64urlDecode cipherText with
  | none => .error .invalidCharacter
  | some combinedBuffer =>
    match base64urlDecode ivString with
    | none => .error .invalidCharacter
    | some iv =>
      let salt := combinedBuffer.take 16
      let encryptedData := combinedBuffer.drop 16
      let key := deriveKey password salt
      match subtleDecrypt key iv encryptedData with
      | none => .error .operationError
      | some decryptedData => .ok (textDecode decryptedData)

/-! ### Worker: id generation and handlers (workers/src/index.ts) -/

/-- `generateId` (workers/src/index.ts lines 52-63): base64url-encode the
drawn random bytes (the source inlines the same btoa-and-replace pipeline as
`base64urlEncode`) and truncate to `len` characters.  The
`Math.ceil(length * 3 / 4)` drawn bytes are passed in as `bytes`. -/
def generateId (len : Nat) (bytes : List Nat) : String :=
  ⟨(((btoaChunks bytes).map toUrlSafe).filter (fun c => c ≠ '=')).take len⟩

/-- One row of the `texts` table (workers/schema.sql). -/
structure StoredText where
  cipher_text : String
  iv : String
  created_at : Int
  expires_at : Int
deriving DecidableEq

/-- The D1 `texts` table: rows keyed by the primary-key `id` column. -/
abbrev Database := List (String × StoredText)

/-- Parsed JSON body of a POST /api/submit request; a missing field is `none`. -/
structure SubmitBody where
  ttl : Option Int
  cipherText : Option String
  iv : Option String

/-- JavaScript falsiness of the `ttl` field: `!ttl` is true when the field is
missing or equals 0. -/
def ttlFalsy : Option Int → Bool
  | none => true
  | some t => t == 0

/-- JavaScript falsiness of a string field: `!s` is true when the field is
missing or is the empty string. -/
def strFalsy : Option String → Bool
  | none => true
  | some s => s == ""

/-- Outcome of the submit handler, by HTTP status. -/
inductive SubmitOutcome
  | badRequest
  | created (id : String) (expiresAt : Int)
  | serverError
deriving DecidableEq

/-- The POST /api/submit handler (workers/src/index.ts lines 82-141): reject
with 400 when `!ttl || !cipherText || !iv`; otherwise insert
`(id, cipherText, iv, now, now + ttl)`.  The single `generateId()` draw is
passed in as `genId`; an INSERT violating the primary key throws and is caught
as a 500, leaving the table unchanged. -/
def submitHandler (db : Database) (body : SubmitBody) (genId : String) (now : Int) :
    SubmitOutcome × Database :=
  if ttlFalsy body.ttl || strFalsy body.cipherText || strFalsy body.iv then
    (.badRequest, db)
  else
    match body.ttl, body.cipherText, body.iv with
    | some ttl, some cipherText, some iv =>
      if (List.lookup genId db).isSome then (.serverError, db)
      else (.created genId (now + ttl),
        (genId, ⟨cipherText, iv, now, now + ttl⟩) :: db)
    | _, _, _ => (.badRequest, db)

/-- Outcome of the fetch handler, by HTTP status (404, 410, 200). -/
inductive FetchOutcome
  | notFound
  | expired
  | success (cipher_text : String) (iv : String) (expiresAt : Int)
deriving DecidableEq

/-- The GET /api/fetch/id handler (workers/src/index.ts lines 149-182): SELECT
by id; 404 when absent; when `expires_at < now` DELETE the row and answer 410;
otherwise answer 200 with the row. -/
def fetchHandler (db : Database) (id : String) (now : Int) :
    FetchOutcome × Database :=
  match List.lookup id db with
  | none => (.notFound, db)
  | some r =>
    if r.expires_at < now then
      (.expired, db.filter (fun p => p.1 ≠ id))
    else
      (.success r.cipher_text r.iv r.expires_at, db)

/-! ### Client password generation (src/Home.tsx lines 30-40) -/

/-- The 64-character alphabet of `generateRandomPassword`. -/
def passwordChars : List Char :=
  "ABCDEFGHIJKLMNOPQRSTUVWXYZabcdefghijklmnopqrstuvwxyz0123456789-_".toList

/-- `generateRandomPassword` (src/Home.tsx lines 30-40): one character per
drawn random byte, indexed by the byte modulo the alphabet length; the 16
bytes of `crypto.getRandomValues(new Uint8Array(16))` are passed in as
`randomValues`. -/
def generateRandomPassword (randomValues : List Nat) : String :=
  ⟨randomValues.map (fun v => passwordChars.getD (v % passwordChars.length) 'A')⟩

/-! ### Base64 helper lemmas -/

/-- The URL-safe base64 alphabet (62nd and 63rd characters '-' and '_'). -/
def urlSafeAlphabet : List Char :=
  "ABCDEFGHIJKLMNOPQRSTUVWXYZabcdefghijklmnopqrstuvwxyz0123456789-_".toList

theorem b64Alphabet_length : b64Alphabet.length = 64 := by decide

theorem b64Char_ne_pad (s : Nat) : b64Char s ≠ '=' := by
  by_cases h : s < 64
  · exact (by decide : ∀ t, t < 64 → b64Char t ≠ '=') s h
  · unfold b64Char
    rw [List.getD_eq_default _ _ (by rw [b64Alphabet_length]; omega)]
    decide

theorem b64Char_mem (s : Nat) (h : s < 64) : b64Char s ∈ b64Alphabet :=
  (by decide : ∀ t, t < 64 → b64Char t ∈ b64Alphabet) s h

theorem b64Digit_b64Char (s : Nat) (h : s < 64) : b64Digit (b64Char s) = s :=
  (by decide : ∀ t, t < 64 → b64Digit (b64Char t) = t) s h

theorem from_to_urlSafe (s : Nat) (h : s < 64) :
    fromUrlSafe (toUrlSafe (b64Char s)) = b64Char s :=
  (by decide : ∀ t, t < 64 → fromUrlSafe (toUrlSafe (b64Char t)) = b64Char t) s h

theorem toUrlSafe_mem_urlSafeAlphabet (s : Nat) (h : s < 64) :
    toUrlSafe (b64Char s) ∈ urlSafeAlphabet :=
  (by decide : ∀ t, t < 64 → toUrlSafe (b64Char t) ∈ urlSafeAlphabet) s h

theorem b64Alphabet_props : ∀ c ∈ b64Alphabet,
    isB64Ws c = false ∧ c ≠ '=' ∧ b64Alphabet.contains c = true := by decide

theorem toUrlSafe_eq_pad_iff (c : Char) : toUrlSafe c = '=' ↔ c = '=' := by
  unfold toUrlSafe
  split_ifs with h1 h2
  · subst h1; constructor <;> (intro hc; exact absurd hc (by decide))
  · subst h2; constructor <;> (intro hc; exact absurd hc (by decide))
  · exact Iff.rfl

/-- The base64url characters of a byte list: `btoaChunks` without padding. -/
def b64Chunks : List Nat → List Char
  | [] => []
  | [x] => [b64Char (x / 4), b64Char (x % 4 * 16)]
  | [x, y] => [b64Char (x / 4), b64Char (x % 4 * 16 + y / 16), b64Char (y % 16 * 4)]
  | x :: y :: z :: rest =>
      b64Char (x / 4) :: b64Char (x % 4 * 16 + y / 16) ::
        b64Char (y % 16 * 4 + z / 64) :: b64Char (z % 64) :: b64Chunks rest

theorem filter_btoaChunks : ∀ bytes : List Nat,
    (btoaChunks bytes).filter (fun c => c ≠ '=') = b64Chunks bytes
  | [] => rfl
  | [x] => by
      simp [btoaChunks, b64Chunks, List.filter, b64Char_ne_pad]
  | [x, y] => by
      simp [btoaChunks, b64Chunks, List.filter, b64Char_ne_pad]
  | x :: y :: z :: rest => by
      have ih := filter_btoaChunks rest
      simp [btoaChunks, b64Chunks, List.filter, b64Char_ne_pad] at ih ⊢
      exact ih

theorem b64Chunks_length : ∀ bytes : List Nat,
    (b64Chunks bytes).length = (bytes.length * 4 + 2) / 3
  | [] => rfl
  | [x] => by simp [b64Chunks]
  | [x, y] => by simp [b64Chunks]
  | x :: y :: z :: rest => by
      simp [b64Chunks, b64Chunks_length rest]
      omega

theorem b64Chunks_sextets : ∀ bytes : List Nat, (∀ b ∈ bytes, b < 256) →
    ∀ c ∈ b64Chunks bytes, ∃ s, s < 64 ∧ c = b64Char s
  | [], _, c, hc => by simp [b64Chunks] at hc
  | [x], h, c, hc => by
      have hx := h x (by simp)
      simp [b64Chunks] at hc
      rcases hc with hc | hc <;> exact ⟨_, by omega, hc⟩
  | [x, y], h, c, hc => by
      have hx := h x (by simp)
      have hy := h y (by simp)
      simp [b64Chunks] at hc
      rcases hc with hc | hc | hc <;> exact ⟨_, by omega, hc⟩
  | x :: y :: z :: rest, h, c, hc => by
      have hx := h x (by simp)
      have hy := h y (by simp)
      have hz := h z (by simp)
      simp only [b64Chunks, List.mem_cons] at hc
      rcases hc with hc | hc | hc | hc | hc
      · exact ⟨_, by omega, hc⟩
      · exact ⟨_, by omega, hc⟩
      · exact ⟨_, by omega, hc⟩
      · exact ⟨_, by omega, hc⟩
      · exact b64Chunks_sextets rest (fun b hb => h b (by simp [hb])) c hc

theorem decodeGroups_b64Chunks : ∀ bytes : List Nat, (∀ b ∈ bytes, b < 256) →
    decodeGroups (b64Chunks bytes) = bytes
  | [], _ => rfl
  | [x], h => by
      have hx := h x (by simp)
      simp [b64Chunks, decodeGroups,
        b64Digit_b64Char (x / 4) (by omega),
        b64Digit_b64Char (x % 4 * 16) (by omega)]
      omega
  | [x, y], h => by
      have hx := h x (by simp)
      have hy := h y (by simp)
      simp [b64Chunks, decodeGroups,
        b64Digit_b64Char (x / 4) (by omega),
        b64Digit_b64Char (x % 4 * 16 + y / 16) (by omega),
        b64Digit_b64Char (y % 16 * 4) (by omega)]
      constructor <;> omega
  | x :: y :: z :: rest, h => by
      have hx := h x (by simp)
      have hy := h y (by simp)
      have hz := h z (by simp)
      have hrest := decodeGroups_b64Chunks rest (fun b hb => h b (by simp [hb]))
      simp [b64Chunks, decodeGroups, hrest,
        b64Digit_b64Char (x / 4) (by omega),
        b64Digit_b64Char (x % 4 * 16 + y / 16) (by omega),
        b64Digit_b64Char (y % 16 * 4 + z / 64) (by omega),
        b64Digit_b64Char (z % 64) (by omega)]
      refine ⟨by omega, by omega, by omega⟩

/-! ### The atob-of-padded composition on clean input -/

theorem stripPad_eq_self (l : List Char) (h : '=' ∉ l) : stripPad l = l := by
  unfold stripPad
  have hg : ¬ l.getLast? = some '=' := fun hc => h (List.mem_of_mem_getLast? hc)
  simp [hg]

theorem stripPad_append_one (l : List Char) (h : '=' ∉ l) :
    stripPad (l ++ ['=']) = l := by
  unfold stripPad
  have h1 : (l ++ ['=']).getLast? = some '=' := List.getLast?_concat l
  have h2 : (l ++ ['=']).dropLast = l := List.dropLast_concat
  have hg : ¬ l.getLast? = some '=' := fun hc => h (List.mem_of_mem_getLast? hc)
  simp [h1, h2, hg]

theorem stripPad_append_two (l : List Char) :
    stripPad (l ++ ['=', '=']) = l := by
  unfold stripPad
  have hsplit : l ++ ['=', '='] = (l ++ ['=']) ++ ['='] := by simp
  rw [hsplit]
  have h1 : ((l ++ ['=']) ++ ['=']).getLast? = some '=' := List.getLast?_concat _
  have h2 : ((l ++ ['=']) ++ ['=']).dropLast = l ++ ['='] := List.dropLast_concat
  have h3 : (l ++ ['=']).getLast? = some '=' := List.getLast?_concat l
  have h4 : (l ++ ['=']).dropLast = l := List.dropLast_concat
  simp [h1, h2, h3, h4]

theorem atob_padB64 (l : List Char)
    (hmem : ∀ c ∈ l, c ∈ b64Alphabet) (hlen : l.length % 4 ≠ 1) :
    atobChars (padB64 l) = some (decodeGroups l) := by
  have hprops : ∀ c ∈ l, isB64Ws c = false ∧ c ≠ '=' ∧ b64Alphabet.contains c = true :=
    fun c hc => b64Alphabet_props c (hmem c hc)
  have hnp : '=' ∉ l := fun hc => (hprops _ hc).2.1 rfl
  unfold atobChars padB64
  have hfilter : (l ++ List.replicate ((4 - l.length % 4) % 4) '=').filter
      (fun c => !isB64Ws c) = l ++ List.replicate ((4 - l.length % 4) % 4) '=' := by
    apply List.filter_eq_self.mpr
    intro a ha
    rcases List.mem_append.mp ha with ha | ha
    · simp [(hprops a ha).1]
    · have haq : a = '=' := List.eq_of_mem_replicate ha
      subst haq; decide
  simp only [hfilter]
  have hlen4 : (l ++ List.replicate ((4 - l.length % 4) % 4) '=').length % 4 = 0 := by
    simp [List.length_append]
    omega
  have hstrip : stripPad (l ++ List.replicate ((4 - l.length % 4) % 4) '=') = l := by
    have hmod : l.length % 4 = 0 ∨ l.length % 4 = 2 ∨ l.length % 4 = 3 := by omega
    rcases hmod with hm | hm | hm
    · rw [hm]
      simpa using stripPad_eq_self l hnp
    · rw [hm]
      have hr : List.replicate ((4 - 2) % 4) '=' = ['=', '='] := by decide
      rw [hr]
      exact stripPad_append_two l
    · rw [hm]
      have hr : List.replicate ((4 - 3) % 4) '=' = ['='] := by decide
      rw [hr]
      exact stripPad_append_one l hnp
  simp only [hlen4, beq_self_eq_true, if_true, reduceIte, hstrip]
  have hne1 : (l.length % 4 == 1) = false := by
    simp
    omega
  have hall : l.all (fun c => b64Alphabet.contains c) = true := by
    apply List.all_eq_true.mpr
    intro c hc
    exact (hprops c hc).2.2
  simp [hne1, hall]
  exact hmem

/-! ### Characterization of base64urlEncode and the decode round trip -/

theorem base64urlEncode_data (bytes : List Nat) :
    (base64urlEncode bytes).data = (b64Chunks bytes).map toUrlSafe := by
  show ((btoaChunks bytes).map toUrlSafe).filter (fun c => c ≠ '=')
      = (b64Chunks bytes).map toUrlSafe
  rw [List.filter_map]
  have hpred : ((fun c => decide (c ≠ '=')) ∘ toUrlSafe)
      = fun c => decide (c ≠ '=') := by
    funext c
    simp [Function.comp, toUrlSafe_eq_pad_iff]
  rw [hpred, filter_btoaChunks]

theorem base64url_roundtrip (bytes : List Nat) (h : ∀ b ∈ bytes, b < 256) :
    base64urlDecode (base64urlEncode bytes) = some bytes := by
  unfold base64urlDecode
  rw [base64urlEncode_data, List.map_map]
  have hmapid : (b64Chunks bytes).map (fromUrlSafe ∘ toUrlSafe) = b64Chunks bytes := by
    have hmap : (b64Chunks bytes).map (fromUrlSafe ∘ toUrlSafe)
        = (b64Chunks bytes).map id := by
      apply List.map_eq_map_iff.mpr
      intro c hc
      obtain ⟨s, hs, rfl⟩ := b64Chunks_sextets bytes h c hc
      simpa using from_to_urlSafe s hs
    simpa using hmap
  rw [hmapid, atob_padB64, decodeGroups_b64Chunks bytes h]
  · intro c hc
    obtain ⟨s, hs, rfl⟩ := b64Chunks_sextets bytes h c hc
    exact b64Char_mem s hs
  · rw [b64Chunks_length]
    omega

/-! ### TextEncoder and TextDecoder round trip -/

theorem char_toNat_valid (c : Char) : Nat.isValidChar c.toNat := by
  rcases c.valid with h | ⟨h1, h2⟩
  · exact Or.inl (by exact_mod_cast h)
  · exact Or.inr ⟨by exact_mod_cast h1, by exact_mod_cast h2⟩

theorem char_toNat_lt (c : Char) : c.toNat < 1114112 := by
  rcases char_toNat_valid c with h | ⟨h1, h2⟩ <;> omega

theorem char_toNat_inj (a b : Char) (h : a.toNat = b.toNat) : a = b := by
  rw [← Char.ofNat_toNat a, ← Char.ofNat_toNat b, h]

theorem textEncode_lt (s : String) : ∀ b ∈ textEncode s, b < 256 := by
  intro b hb
  simp only [textEncode, List.mem_flatMap] at hb
  obtain ⟨c, hc, hb⟩ := hb
  have hlt := char_toNat_lt c
  simp at hb
  rcases hb with hb | hb | hb <;> omega

theorem textDecode_textEncode (s : String) : textDecode (textEncode s) = s := by
  apply String.ext
  show textDecodeChars (s.data.flatMap _) = s.data
  induction s.data with
  | nil => rfl
  | cons c cs ih =>
    have hlt := char_toNat_lt c
    have he : c.toNat / 65536 * 65536 + c.toNat / 256 % 256 * 256 + c.toNat % 256
        = c.toNat := by omega
    simp only [List.flatMap_cons, List.cons_append, List.nil_append, textDecodeChars,
      he, char_toNat_valid c, if_true, Char.ofNat_toNat]
    simpa using ih

/-! ### Tag injectivity for the ideal AEAD -/

/-- Everything after the 255 marker of `macTag`. -/
def tagBody (key : DerivedKey) (iv : List Nat) : List Nat :=
  unaryCode (key.password.data.map Char.toNat) ++ 2 :: unaryCode key.salt ++ 2 :: unaryCode iv

theorem macTag_cons (key : DerivedKey) (iv : List Nat) :
    macTag key iv = 255 :: tagBody key iv := by
  simp [macTag, tagBody]

theorem unaryCode_le (l : List Nat) : ∀ b ∈ unaryCode l, b ≤ 1 := by
  intro b hb
  simp only [unaryCode, List.mem_flatMap] at hb
  obtain ⟨n, hn, hb⟩ := hb
  rcases List.mem_append.mp hb with hb | hb
  · rw [List.eq_of_mem_replicate hb]; omega
  · simp at hb; omega

theorem tagBody_le (key : DerivedKey) (iv : List Nat) : ∀ b ∈ tagBody key iv, b ≤ 2 := by
  intro b hb
  unfold tagBody at hb
  rcases List.mem_append.mp hb with hb | hb
  · rcases List.mem_append.mp hb with hb | hb
    · exact Nat.le_trans (unaryCode_le _ b hb) (by omega)
    · rcases List.mem_cons.mp hb with hb | hb
      · omega
      · exact Nat.le_trans (unaryCode_le _ b hb) (by omega)
  · rcases List.mem_cons.mp hb with hb | hb
    · omega
    · exact Nat.le_trans (unaryCode_le _ b hb) (by omega)

theorem macTag_lt (key : DerivedKey) (iv : List Nat) : ∀ b ∈ macTag key iv, b < 256 := by
  intro b hb
  rw [macTag_cons] at hb
  rcases List.mem_cons.mp hb with hb | hb
  · omega
  · exact Nat.lt_of_le_of_lt (tagBody_le key iv b hb) (by omega)

theorem replicate_unary_inj : ∀ (n m : Nat) (u v : List Nat),
    List.replicate n 0 ++ 1 :: u = List.replicate m 0 ++ 1 :: v → n = m ∧ u = v
  | 0, 0, u, v, h => by simpa using h
  | 0, m + 1, u, v, h => by
      rw [List.replicate_succ] at h
      simp only [List.nil_append, List.cons_append] at h
      injection h with h0 _
      exact absurd h0 (by decide)
  | n + 1, 0, u, v, h => by
      rw [List.replicate_succ] at h
      simp only [List.nil_append, List.cons_append] at h
      injection h with h0 _
      exact absurd h0 (by decide)
  | n + 1, m + 1, u, v, h => by
      rw [List.replicate_succ, List.replicate_succ] at h
      simp only [List.cons_append] at h
      injection h with _ htl
      obtain ⟨hnm, huv⟩ := replicate_unary_inj n m u v htl
      exact ⟨by omega, huv⟩

theorem unaryCode_inj : ∀ (l1 l2 : List Nat), unaryCode l1 = unaryCode l2 → l1 = l2
  | [], [], _ => rfl
  | [], m :: t, h => by
      exfalso
      have hl := congrArg List.length h
      simp [unaryCode] at hl
      omega
  | n :: t, [], h => by
      exfalso
      have hl := congrArg List.length h
      simp [unaryCode] at hl
  | n :: t, m :: t2, h => by
      simp only [unaryCode, List.flatMap_cons, List.append_assoc,
        List.singleton_append] at h
      obtain ⟨hnm, ht⟩ := replicate_unary_inj n m _ _ h
      rw [hnm, unaryCode_inj t t2 ht]

theorem sep_append_inj : ∀ (u1 u2 v1 v2 : List Nat), (∀ b ∈ u1, b ≤ 1) →
    (∀ b ∈ u2, b ≤ 1) → u1 ++ 2 :: v1 = u2 ++ 2 :: v2 → u1 = u2 ∧ v1 = v2
  | [], [], v1, v2, _, _, h => by simpa using h
  | [], c :: t, v1, v2, _, h2, h => by
      exfalso
      simp only [List.nil_append, List.cons_append] at h
      injection h with hc _
      have := h2 c (by simp)
      omega
  | c :: t, [], v1, v2, h1, _, h => by
      exfalso
      simp only [List.nil_append, List.cons_append] at h
      injection h with hc _
      have := h1 c (by simp)
      omega
  | c :: t, d :: t2, v1, v2, h1, h2, h => by
      simp only [List.cons_append] at h
      injection h with hcd ht
      obtain ⟨ha, hb⟩ := sep_append_inj t t2 v1 v2
        (fun b hb => h1 b (by simp [hb])) (fun b hb => h2 b (by simp [hb])) ht
      subst hcd
      rw [ha]
      exact ⟨rfl, hb⟩

theorem macTag_inj (k1 k2 : DerivedKey) (iv1 iv2 : List Nat)
    (h : macTag k1 iv1 = macTag k2 iv2) : k1 = k2 ∧ iv1 = iv2 := by
  obtain ⟨p1, s1⟩ := k1
  obtain ⟨p2, s2⟩ := k2
  rw [macTag_cons, macTag_cons] at h
  injection h with _ hbody
  unfold tagBody at hbody
  simp only [List.append_assoc, List.cons_append] at hbody
  obtain ⟨hpw, hrest⟩ := sep_append_inj _ _ _ _
    (unaryCode_le _) (unaryCode_le _) hbody
  obtain ⟨hsalt, hiv⟩ := sep_append_inj _ _ _ _
    (unaryCode_le _) (unaryCode_le _) hrest
  have hiv2 : iv1 = iv2 := unaryCode_inj _ _ hiv
  have hsalt2 : s1 = s2 := unaryCode_inj _ _ hsalt
  have hpwl : p1.data.map Char.toNat = p2.data.map Char.toNat :=
    unaryCode_inj _ _ hpw
  have hpw3 : p1 = p2 := by
    apply String.ext
    exact List.map_injective_iff.mpr (fun a b hab => char_toNat_inj a b hab) hpwl
  rw [hpw3, hsalt2, hiv2]
  exact ⟨rfl, rfl⟩

/-! ### Ideal AEAD round trip and authentication -/

theorem subtleDecrypt_subtleEncrypt (key : DerivedKey) (iv data : List Nat) :
    subtleDecrypt key iv (subtleEncrypt key iv data) = some data := by
  unfold subtleDecrypt subtleEncrypt
  have hsuf : (macTag key iv).isSuffixOf (data ++ macTag key iv) = true := by
    rw [List.isSuffixOf_iff_suffix]
    exact List.suffix_append data _
  simp only [hsuf, if_true, List.length_append, Nat.add_sub_cancel, List.take_left]

theorem tag_suffix_of_tag (ka kb : DerivedKey) (iv : List Nat)
    (hs : macTag ka iv <:+ macTag kb iv) : ka = kb := by
  rcases Nat.lt_or_ge (macTag ka iv).length (macTag kb iv).length with hlt | hge
  · exfalso
    rw [macTag_cons kb] at hs
    rcases List.suffix_cons_iff.mp hs with hcase | hcase
    · have heq : macTag ka iv = macTag kb iv := by rw [hcase, macTag_cons]
      rw [heq] at hlt
      omega
    · have h255 : (255 : Nat) ∈ tagBody kb iv := by
        apply hcase.subset
        rw [macTag_cons]
        simp
      have := tagBody_le kb iv 255 h255
      omega
  · have hlen : (macTag ka iv).length = (macTag kb iv).length :=
      Nat.le_antisymm hs.length_le hge
    exact (macTag_inj _ _ _ _ (hs.eq_of_length hlen)).1

theorem subtleDecrypt_wrong (k1 k2 : DerivedKey) (iv data : List Nat) (hne : k2 ≠ k1) :
    subtleDecrypt k2 iv (subtleEncrypt k1 iv data) = none := by
  unfold subtleDecrypt subtleEncrypt
  have hnsuf : ¬ ((macTag k2 iv).isSuffixOf (data ++ macTag k1 iv) = true) := by
    rw [List.isSuffixOf_iff_suffix]
    intro hsuf
    have h1 : macTag k1 iv <:+ data ++ macTag k1 iv := List.suffix_append data _
    rcases List.suffix_or_suffix_of_suffix hsuf h1 with hs | hs
    · exact hne (tag_suffix_of_tag k2 k1 iv hs)
    · exact hne (tag_suffix_of_tag k1 k2 iv hs).symm
  simp [hnsuf]

/-! ### Envelope round trip and authentication -/

theorem subtleEncrypt_lt (key : DerivedKey) (iv : List Nat) (text : String) :
    ∀ b ∈ subtleEncrypt key iv (textEncode text), b < 256 := by
  intro b hb
  rcases List.mem_append.mp hb with hb | hb
  · exact textEncode_lt text b hb
  · exact macTag_lt key iv b hb

theorem encryptText_cipher_decode (text password : String) (salt iv : List Nat)
    (hsalt : ∀ b ∈ salt, b < 256) :
    base64urlDecode (encryptText text password salt iv).cipherText
      = some (salt ++ subtleEncrypt (deriveKey password salt) iv (textEncode text)) := by
  have hdef : (encryptText text password salt iv).cipherText
      = base64urlEncode (salt ++ subtleEncrypt (deriveKey password salt) iv
        (textEncode text)) := rfl
  rw [hdef]
  apply base64url_roundtrip
  intro b hb
  rcases List.mem_append.mp hb with hb | hb
  · exact hsalt b hb
  · exact subtleEncrypt_lt _ _ _ b hb

theorem encryptText_iv_decode (text password : String) (salt iv : List Nat)
    (hiv : ∀ b ∈ iv, b < 256) :
    base64urlDecode (encryptText text password salt iv).iv = some iv := by
  have hdef : (encryptText text password salt iv).iv = base64urlEncode iv := rfl
  rw [hdef]
  exact base64url_roundtrip iv hiv

theorem decryptText_encryptText (text password : String) (salt iv : List Nat)
    (h16 : salt.length = 16) (hsalt : ∀ b ∈ salt, b < 256)
    (hiv : ∀ b ∈ iv, b < 256) :
    decryptText (encryptText text password salt iv).cipherText
      (encryptText text password salt iv).iv password = .ok text := by
  have hc := encryptText_cipher_decode text password salt iv hsalt
  have hi := encryptText_iv_decode text password salt iv hiv
  have htake : (salt ++ subtleEncrypt (deriveKey password salt) iv
      (textEncode text)).take 16 = salt := by
    rw [← h16]
    exact List.take_left _ _
  have hdrop : (salt ++ subtleEncrypt (deriveKey password salt) iv
      (textEncode text)).drop 16
      = subtleEncrypt (deriveKey password salt) iv (textEncode text) := by
    rw [← h16]
    exact List.drop_left _ _
  unfold decryptText
  rw [hc, hi]
  simp only [htake, hdrop, subtleDecrypt_subtleEncrypt, textDecode_textEncode]

theorem decryptText_wrong_password (text p1 p2 : String) (salt iv : List Nat)
    (h16 : salt.length = 16) (hsalt : ∀ b ∈ salt, b < 256)
    (hiv : ∀ b ∈ iv, b < 256) (hne : p1 ≠ p2) :
    decryptText (encryptText text p1 salt iv).cipherText
      (encryptText text p1 salt iv).iv p2 = .error .operationError := by
  have hc := encryptText_cipher_decode text p1 salt iv hsalt
  have hi := encryptText_iv_decode text p1 salt iv hiv
  have htake : (salt ++ subtleEncrypt (deriveKey p1 salt) iv
      (textEncode text)).take 16 = salt := by
    rw [← h16]
    exact List.take_left _ _
  have hdrop : (salt ++ subtleEncrypt (deriveKey p1 salt) iv
      (textEncode text)).drop 16
      = subtleEncrypt (deriveKey p1 salt) iv (textEncode text) := by
    rw [← h16]
    exact List.drop_left _ _
  have hkne : deriveKey p2 salt ≠ deriveKey p1 salt := by
    intro hcon
    unfold deriveKey at hcon
    injection hcon with hp _
    exact hne hp.symm
  unfold decryptText
  rw [hc, hi]
  simp only [htake, hdrop, subtleDecrypt_wrong _ _ _ _ hkne]

/-! ### Store handler lemmas -/

theorem lookup_filter_ne (db : Database) (id : String) :
    List.lookup id (db.filter (fun p => p.1 ≠ id)) = none := by
  induction db with
  | nil => rfl
  | cons kv t ih =>
    obtain ⟨k, v⟩ := kv
    by_cases hk : k = id
    · subst hk
      simp only [List.filter_cons]
      have hcond : (decide ((k, v).1 ≠ k)) = false := by simp
      rw [hcond]
      simpa using ih
    · simp only [List.filter_cons]
      have hcond : (decide ((k, v).1 ≠ id)) = true := by simp [hk]
      rw [hcond]
      show List.lookup id ((k, v) :: t.filter _) = none
      rw [List.lookup]
      have hbeq : (id == k) = false := beq_false_of_ne (Ne.symm hk)
      rw [hbeq]
      exact ih

theorem fetchHandler_some (db : Database) (id : String) (now : Int) (r : StoredText)
    (hr : List.lookup id db = some r) :
    fetchHandler db id now = if r.expires_at < now
      then (.expired, db.filter (fun p => p.1 ≠ id))
      else (.success r.cipher_text r.iv r.expires_at, db) := by
  unfold fetchHandler
  rw [hr]

theorem fetchHandler_none (db : Database) (id : String) (now : Int)
    (hr : List.lookup id db = none) :
    fetchHandler db id now = (.notFound, db) := by
  unfold fetchHandler
  rw [hr]

/-- C2 counterexample: a record whose expires_at equals the current time is
returned as a 200 success by the fetch handler, with the store unchanged — the
claim says a fetch at the exact instant now == expires_at must not succeed. -/
theorem C2_counterexample :
    fetchHandler [("a", ⟨"c", "v", 0, 5⟩)] "a" 5
      = (.success "c" "v" 5, [("a", ⟨"c", "v", 0, 5⟩)]) := by decide

/-- C2 (amended): the fetch handler returns a stored record as a success
whenever now ≤ expires_at (so also at the exact expiry instant); only once
now > expires_at is the record never returned alive: the fetch then answers
Expired (deleting the row, so a lookup afterwards finds nothing) or NotFound
when it is already gone. -/
theorem C2_fetch_expiry_boundary (db : Database) (id : String) (now : Int) :
    (∀ r, List.lookup id db = some r → now ≤ r.expires_at →
      fetchHandler db id now = (.success r.cipher_text r.iv r.expires_at, db))
    ∧ ((∀ r, List.lookup id db = some r → r.expires_at < now) →
      (∀ ct iv e, (fetchHandler db id now).1 ≠ .success ct iv e)
      ∧ List.lookup id (fetchHandler db id now).2 = none) := by
  constructor
  · intro r hr hle
    rw [fetchHandler_some db id now r hr, if_neg (by omega)]
  · intro hexp
    cases hl : List.lookup id db with
    | none =>
      rw [fetchHandler_none db id now hl]
      exact ⟨fun ct iv e => by simp, hl⟩
    | some r =>
      rw [fetchHandler_some db id now r hl, if_pos (hexp r hl)]
      exact ⟨fun ct iv e => by simp, lookup_filter_ne db id⟩

/-- Witness for C2 (amended) at concrete inputs: a record expiring at 5 is
alive at 5, and a fetch at 6 neither succeeds nor leaves the row behind. -/
theorem C2_witness :
    fetchHandler [("a", ⟨"c", "v", 0, 5⟩)] "a" 5
        = (.success "c" "v" 5, [("a", ⟨"c", "v", 0, 5⟩)])
    ∧ (∀ ct iv e, (fetchHandler [("a", ⟨"c", "v", 0, 5⟩)] "a" 6).1 ≠ .success ct iv e)
    ∧ List.lookup "a" (fetchHandler [("a", ⟨"c", "v", 0, 5⟩)] "a" 6).2 = none := by
  have hexp : ∀ r : StoredText,
      List.lookup "a" [("a", (⟨"c", "v", 0, 5⟩ : StoredText))] = some r →
      r.expires_at < 6 := by
    intro r hr
    simp [List.lookup] at hr
    rw [← hr]
    decide
  refine ⟨?_, ?_, ?_⟩
  · exact (C2_fetch_expiry_boundary [("a", ⟨"c", "v", 0, 5⟩)] "a" 5).1
      ⟨"c", "v", 0, 5⟩ (by decide) (by decide)
  · exact ((C2_fetch_expiry_boundary [("a", ⟨"c", "v", 0, 5⟩)] "a" 6).2 hexp).1
  · exact ((C2_fetch_expiry_boundary [("a", ⟨"c", "v", 0, 5⟩)] "a" 6).2 hexp).2

/-- C4 counterexample: a submit with the negative ttl -5 is not rejected; it
creates a record whose expires_at 95 lies before its created_at 100 — the
claim says every ttl ≤ 0 must fail with a 400 validation error and create
nothing. -/
theorem C4_counterexample :
    submitHandler [] ⟨some (-5), some "c", some "v"⟩ "id1" 100
      = (.created "id1" 95, [("id1", ⟨"c", "v", 100, 95⟩)]) := by decide

/-- C4 (amended): the submit handler's validation is JavaScript falsiness, not
positivity: a missing or zero ttl (or missing/empty cipherText/iv) is rejected
with 400 and no record is created, but every nonzero ttl — negative ones
included — is accepted, creating a record with expires_at = created_at + ttl. -/
theorem C4_submit_ttl_validation (db : Database) (t : Int) (c i g : String) (now : Int) :
    (submitHandler db ⟨some 0, some c, some i⟩ g now = (.badRequest, db))
    ∧ (submitHandler db ⟨none, some c, some i⟩ g now = (.badRequest, db))
    ∧ (t ≠ 0 → c ≠ "" → i ≠ "" → List.lookup g db = none →
        submitHandler db ⟨some t, some c, some i⟩ g now
          = (.created g (now + t), (g, ⟨c, i, now, now + t⟩) :: db)) := by
  refine ⟨?_, ?_, ?_⟩
  · simp [submitHandler, ttlFalsy]
  · simp [submitHandler, ttlFalsy]
  · intro ht hc hi hg
    have h1 : ttlFalsy (some t) = false := by simp [ttlFalsy, ht]
    have h2 : strFalsy (some c) = false := by simp [strFalsy, hc]
    have h3 : strFalsy (some i) = false := by simp [strFalsy, hi]
    simp [submitHandler, h1, h2, h3, hg]

/-- Witness for C4 (amended) at concrete inputs, including the accepted
negative ttl -5. -/
theorem C4_witness :
    (submitHandler [] ⟨some 0, some "c", some "v"⟩ "id1" 100 = (.badRequest, []))
    ∧ submitHandler [] ⟨some (-5), some "c", some "v"⟩ "id1" 100
        = (.created "id1" 95, [("id1", ⟨"c", "v", 100, 95⟩)]) := by
  refine ⟨(C4_submit_ttl_validation [] 0 "c" "v" "id1" 100).1, ?_⟩
  have h := (C4_submit_ttl_validation [] (-5) "c" "v" "id1" 100).2.2
    (by decide) (by decide) (by decide) (by decide)
  simpa using h

/-- C5 counterexample: when the generated id collides, the submit handler
surfaces a 500 on the very first collision with the store unchanged — the
claim says the submit path retries with a freshly generated id before
surfacing a 500. -/
theorem C5_counterexample :
    submitHandler [("g", ⟨"c", "v", 0, 50⟩)] ⟨some 5, some "c2", some "v2"⟩ "g" 10
      = (.serverError, [("g", ⟨"c", "v", 0, 50⟩)]) := by decide

/-- C5 (amended): a duplicate-id insert is a distinguishable error, never an
overwrite — the existing record and the whole store are untouched and the
request fails with 500; but the handler performs no retry: `generateId` is
called once and the first collision is surfaced directly as the 500. -/
theorem C5_collision_no_retry (db : Database) (t : Int) (c i g : String) (now : Int)
    (r : StoredText) (hr : List.lookup g db = some r)
    (ht : t ≠ 0) (hc : c ≠ "") (hi : i ≠ "") :
    submitHandler db ⟨some t, some c, some i⟩ g now = (.serverError, db) := by
  have h1 : ttlFalsy (some t) = false := by simp [ttlFalsy, ht]
  have h2 : strFalsy (some c) = false := by simp [strFalsy, hc]
  have h3 : strFalsy (some i) = false := by simp [strFalsy, hi]
  simp [submitHandler, h1, h2, h3, hr]

/-- Witness for C5 (amended) at a concrete colliding submit. -/
theorem C5_witness :
    submitHandler [("g", ⟨"c", "v", 0, 50⟩)] ⟨some 5, some "c2", some "v2"⟩ "g" 10
      = (.serverError, [("g", ⟨"c", "v", 0, 50⟩)]) :=
  C5_collision_no_retry [("g", ⟨"c", "v", 0, 50⟩)] 5 "c2" "v2" "g" 10
    ⟨"c", "v", 0, 50⟩ (by decide) (by decide) (by decide) (by decide)

/-! ### Claims about the envelope codec -/

/-- C1: round trip of the envelope codec — for every plaintext and password,
and every 16-byte salt and 12-byte iv drawn by encryptText from the secure
random source, decrypting the resulting envelope with the same password
returns the original plaintext. -/
theorem C1_encrypt_decrypt_roundtrip (text password : String) (salt iv : List Nat)
    (h16 : salt.length = 16) (_h12 : iv.length = 12)
    (hsalt : ∀ b ∈ salt, b < 256) (hiv : ∀ b ∈ iv, b < 256) :
    decryptText (encryptText text password salt iv).cipherText
      (encryptText text password salt iv).iv password = .ok text :=
  decryptText_encryptText text password salt iv h16 hsalt hiv

/-- Witness for C1 at concrete inputs. -/
theorem C1_witness :
    decryptText (encryptText "hi" "pw" (List.replicate 16 0) (List.replicate 12 0)).cipherText
      (encryptText "hi" "pw" (List.replicate 16 0) (List.replicate 12 0)).iv "pw"
      = .ok "hi" :=
  C1_encrypt_decrypt_roundtrip "hi" "pw" (List.replicate 16 0) (List.replicate 12 0)
    (by decide) (by decide) (by decide) (by decide)

/-- C6: authentication on wrong password — decrypting an envelope produced
under password1 with a different password2 fails with the authentication
(OperationError) rejection of the AEAD; it never silently returns a wrong
plaintext. -/
theorem C6_wrong_password_authentication (text password1 password2 : String)
    (salt iv : List Nat) (hne : password1 ≠ password2)
    (h16 : salt.length = 16) (_h12 : iv.length = 12)
    (hsalt : ∀ b ∈ salt, b < 256) (hiv : ∀ b ∈ iv, b < 256) :
    decryptText (encryptText text password1 salt iv).cipherText
      (encryptText text password1 salt iv).iv password2
      = .error .operationError :=
  decryptText_wrong_password text password1 password2 salt iv h16 hsalt hiv hne

/-- Witness for C6 at concrete inputs. -/
theorem C6_witness :
    decryptText (encryptText "hi" "pw" (List.replicate 16 0) (List.replicate 12 0)).cipherText
      (encryptText "hi" "pw" (List.replicate 16 0) (List.replicate 12 0)).iv "pw2"
      = .error .operationError :=
  C6_wrong_password_authentication "hi" "pw" "pw2" (List.replicate 16 0)
    (List.replicate 12 0) (by decide) (by decide) (by decide) (by decide) (by decide)

/-- C8: envelope wire layout — the cipherText field decodes to the 16-byte
salt followed by the AEAD output (so the salt occupies the first 16 decoded
bytes), and the iv field decodes to the 12 iv bytes alone. -/
theorem C8_envelope_layout (text password : String) (salt iv : List Nat)
    (h16 : salt.length = 16) (_h12 : iv.length = 12)
    (hsalt : ∀ b ∈ salt, b < 256) (hiv : ∀ b ∈ iv, b < 256) :
    base64urlDecode (encryptText text password salt iv).cipherText
      = some (salt ++ subtleEncrypt (deriveKey password salt) iv (textEncode text))
    ∧ (salt ++ subtleEncrypt (deriveKey password salt) iv (textEncode text)).take 16
      = salt
    ∧ base64urlDecode (encryptText text password salt iv).iv = some iv :=
  ⟨encryptText_cipher_decode text password salt iv hsalt,
   by rw [← h16]; exact List.take_left _ _,
   encryptText_iv_decode text password salt iv hiv⟩

/-- Witness for C8 at concrete inputs. -/
theorem C8_witness :
    base64urlDecode (encryptText "A" "p" (List.replicate 16 0)
        (List.replicate 12 0)).cipherText
      = some (List.replicate 16 0 ++ subtleEncrypt
          (deriveKey "p" (List.replicate 16 0)) (List.replicate 12 0) (textEncode "A"))
    ∧ (List.replicate 16 0 ++ subtleEncrypt (deriveKey "p" (List.replicate 16 0))
        (List.replicate 12 0) (textEncode "A")).take 16 = List.replicate 16 0
    ∧ base64urlDecode (encryptText "A" "p" (List.replicate 16 0)
        (List.replicate 12 0)).iv = some (List.replicate 12 0) :=
  C8_envelope_layout "A" "p" (List.replicate 16 0) (List.replicate 12 0)
    (by decide) (by decide) (by decide) (by decide)

/-- C9: base64url codec round trip — decoding the encoding of any byte buffer
returns exactly the original bytes. -/
theorem C9_base64url_codec_roundtrip (bytes : List Nat) (h : ∀ b ∈ bytes, b < 256) :
    base64urlDecode (base64urlEncode bytes) = some bytes :=
  base64url_roundtrip bytes h

/-- Witness for C9 on a concrete buffer whose length is 2 mod 3 (so one
padding character is stripped and re-added) and which contains high byte
values. -/
theorem C9_witness :
    base64urlDecode (base64urlEncode [0, 1, 77, 128, 255]) = some [0, 1, 77, 128, 255] :=
  C9_base64url_codec_roundtrip [0, 1, 77, 128, 255] (by decide)

set_option maxRecDepth 1000000

/-- C3 counterexample: decryptText has no MalformedEnvelope validation — an
envelope whose iv field decodes to only 5 bytes (not 12) is not rejected: the
code proceeds through key derivation and authenticated decryption and even
succeeds when the tag was formed over that 5-byte iv. -/
theorem C3_counterexample :
    base64urlDecode (base64urlEncode (List.replicate 5 0)) = some (List.replicate 5 0)
    ∧ decryptText
        (base64urlEncode (List.replicate 16 0 ++ textEncode "\x01"
          ++ macTag (deriveKey "\x02" (List.replicate 16 0)) (List.replicate 5 0)))
        (base64urlEncode (List.replicate 5 0)) "\x02"
      = .ok "\x01" := by
  constructor
  · decide
  · decide

/-- C3 (amended): the only envelope-shape failure in decryptText is a field
that does not base64url-decode, which surfaces the atob decoding error before
any key derivation; a successfully decoded iv of any length and a decoded
cipherText of any length proceed to key derivation and decryption, and no
MalformedEnvelope error exists. -/
theorem C3_no_malformed_envelope_check (cipherText ivString password : String)
    (h : base64urlDecode cipherText = none ∨ base64urlDecode ivString = none) :
    decryptText cipherText ivString password = .error .invalidCharacter := by
  unfold decryptText
  rcases h with h | h
  · rw [h]
  · cases hc : base64urlDecode cipherText with
    | none => rfl
    | some l => rw [h]

/-- Witness for C3 (amended): both fields, when undecodable, surface the
decoding error. -/
theorem C3_witness :
    decryptText "%" "AAAA" "p" = .error .invalidCharacter
    ∧ decryptText "AAAA" "%" "p" = .error .invalidCharacter :=
  ⟨C3_no_malformed_envelope_check "%" "AAAA" "p" (Or.inl (by decide)),
   C3_no_malformed_envelope_check "AAAA" "%" "p" (Or.inr (by decide))⟩

/-! ### Claims about the generators -/

theorem generateId_data (len : Nat) (bytes : List Nat) :
    (generateId len bytes).data = ((b64Chunks bytes).map toUrlSafe).take len := by
  have hdef : (generateId len bytes).data = (base64urlEncode bytes).data.take len := rfl
  rw [hdef, base64urlEncode_data]

/-- C7: identifier generation — drawing ceil(length * 3 / 4) random bytes,
base64url-encoding them and truncating to length characters yields a string
of exactly length URL-safe characters; in particular generateId 12 consumes
9 random bytes and returns 12 URL-safe characters. -/
theorem C7_generateId_spec (len : Nat) (bytes : List Nat)
    (hlen : bytes.length = (len * 3 + 3) / 4) (hb : ∀ b ∈ bytes, b < 256) :
    (generateId len bytes).length = len
    ∧ ∀ c ∈ (generateId len bytes).data, c ∈ urlSafeAlphabet := by
  constructor
  · show (generateId len bytes).data.length = len
    rw [generateId_data, List.length_take, List.length_map, b64Chunks_length, hlen]
    omega
  · intro c hc
    rw [generateId_data] at hc
    have hc2 := List.take_subset _ _ hc
    obtain ⟨c2, hc3, rfl⟩ := List.mem_map.mp hc2
    obtain ⟨s, hs, rfl⟩ := b64Chunks_sextets bytes hb c2 hc3
    exact toUrlSafe_mem_urlSafeAlphabet s hs

/-- Witness for C7 at the default length 12 with 9 concrete bytes. -/
theorem C7_witness :
    (generateId 12 (List.range 9)).length = 12
    ∧ ∀ c ∈ (generateId 12 (List.range 9)).data, c ∈ urlSafeAlphabet :=
  C7_generateId_spec 12 (List.range 9) (by decide) (by decide)

/-- C10: generated password shape — generateRandomPassword over its 16 drawn
random bytes always returns a string of exactly 16 characters, each from the
64-character URL-safe alphabet, and never containing the '~' separator of the
share URL. -/
theorem C10_generateRandomPassword_shape (randomValues : List Nat)
    (h : randomValues.length = 16) :
    (generateRandomPassword randomValues).length = 16
    ∧ ∀ c ∈ (generateRandomPassword randomValues).data,
        c ∈ passwordChars ∧ c ≠ '~' := by
  constructor
  · show (generateRandomPassword randomValues).data.length = 16
    show (randomValues.map _).length = 16
    rw [List.length_map, h]
  · intro c hc
    have hc2 : c ∈ randomValues.map
        (fun v => passwordChars.getD (v % passwordChars.length) 'A') := hc
    obtain ⟨v, hv, rfl⟩ := List.mem_map.mp hc2
    have hlen64 : passwordChars.length = 64 := by decide
    have hlt : v % passwordChars.length < 64 := by
      rw [hlen64]
      omega
    exact (by decide : ∀ k, k < 64 →
        passwordChars.getD k 'A' ∈ passwordChars ∧ passwordChars.getD k 'A' ≠ '~')
      (v % passwordChars.length) hlt

/-- Witness for C10 at 16 concrete bytes. -/
theorem C10_witness :
    (generateRandomPassword (List.range 16)).length = 16
    ∧ ∀ c ∈ (generateRandomPassword (List.range 16)).data,
        c ∈ passwordChars ∧ c ≠ '~' :=
  C10_generateRandomPassword_shape (List.range 16) (by decide)

end Txtoo
